import Mathlib

/-!
# AudioGO — verification of the signaling/session core

Shallow embedding of the Go sources of `14juanvf14/AudioGO`:
`src/whatsapp/signal.go` (signal codec), `src/whatsapp/handlers.go`
(HTTP handlers, peer callbacks, audio bridge) and the call registry
(`src/unnamed/part_007`).  Go strings are modelled as `List Char`,
Go byte slices as `List Nat` (each element `< 256`), Go maps/`sync.Map`
as association lists, channels as explicit queues, and fallible or
panicking operations as `Option`/explicit outcome types.
-/

namespace AudioGO

/-- A Go string, modelled as its list of characters. -/
abbrev GoStr := List Char

/-- A Go byte slice, modelled as a list of naturals (each `< 256`). -/
abbrev Bytes := List Nat

/-- Embedding of a Lean string literal into the Go-string model. -/
def str (s : String) : GoStr := s.data

/-! ## Go standard-library string helpers used by the handlers -/

/-- `unicode.IsSpace` restricted to the characters Go's `strings.TrimSpace`
can meet here: ASCII whitespace plus U+0085 and U+00A0 (the Latin-1 cases
of `unicode.IsSpace`). -/
def goIsSpace (c : Char) : Bool :=
  c = ' ' || c = '\t' || c = '\n' || c = '\x0b' || c = '\x0c' || c = '\r'
    || c = '\x85' || c = '\xa0'

/-- `strings.TrimSpace`: drop leading and trailing whitespace. -/
def goTrimSpace (s : GoStr) : GoStr :=
  ((s.dropWhile goIsSpace).reverse.dropWhile goIsSpace).reverse

/-- `strings.Split(s, sep)` for a one-character separator: the list of
(possibly empty) substrings between occurrences of `sep`.
`goSplit sep [] = [[]]`, matching Go's `Split("", sep) = [""]`. -/
def goSplit (sep : Char) : GoStr → List GoStr
  | [] => [[]]
  | c :: rest =>
    if c = sep then [] :: goSplit sep rest
    else
      match goSplit sep rest with
      | [] => [[c]]
      | p :: ps => (c :: p) :: ps

/-! ## Base64 (Go `encoding/base64`, `StdEncoding`)

`signal.go` encodes with `base64.StdEncoding.EncodeToString` and decodes
with `base64.StdEncoding.DecodeString`.  We embed the standard alphabet
with `=` padding.  (Go's decoder additionally skips `\r`/`\n`, which the
encoder never emits; that leniency is irrelevant to the claims and is not
modelled.) -/

/-- The standard base64 alphabet, in index order. -/
def b64Alphabet : List Char :=
  ['A','B','C','D','E','F','G','H','I','J','K','L','M','N','O','P',
   'Q','R','S','T','U','V','W','X','Y','Z',
   'a','b','c','d','e','f','g','h','i','j','k','l','m','n','o','p',
   'q','r','s','t','u','v','w','x','y','z',
   '0','1','2','3','4','5','6','7','8','9','+','/']

/-- Encode one 6-bit group as its alphabet character. -/
def encodeSextet (n : Nat) : Char := b64Alphabet.getD n 'A'

/-- Decode one alphabet character back to its 6-bit group. -/
def decodeSextet (c : Char) : Option Nat :=
  let i := b64Alphabet.indexOf c
  if i < 64 then some i else none

/-- `base64.StdEncoding.EncodeToString`: three input bytes become four
alphabet characters; a one- or two-byte tail is padded with `=`. -/
def base64Encode : Bytes → GoStr
  | [] => []
  | [b0] =>
    [encodeSextet (b0 / 4), encodeSextet (b0 % 4 * 16), '=', '=']
  | [b0, b1] =>
    [encodeSextet (b0 / 4), encodeSextet (b0 % 4 * 16 + b1 / 16),
     encodeSextet (b1 % 16 * 4), '=']
  | b0 :: b1 :: b2 :: rest =>
    encodeSextet (b0 / 4) :: encodeSextet (b0 % 4 * 16 + b1 / 16) ::
    encodeSextet (b1 % 16 * 4 + b2 / 64) :: encodeSextet (b2 % 64) ::
    base64Encode rest

/-- `base64.StdEncoding.DecodeString`: consume four characters at a time;
a quartet ending in `=` must be final.  `none` models the `error` return
(`CorruptInputError` / wrong length). -/
def base64Decode : GoStr → Option Bytes
  | [] => some []
  | c1 :: c2 :: c3 :: c4 :: rest =>
    match decodeSextet c1, decodeSextet c2 with
    | some s1, some s2 =>
      if c3 = '=' then
        if c4 = '=' ∧ rest = [] then some [s1 * 4 + s2 / 16] else none
      else
        match decodeSextet c3 with
        | some s3 =>
          if c4 = '=' then
            if rest = [] then some [s1 * 4 + s2 / 16, s2 % 16 * 16 + s3 / 4]
            else none
          else
            match decodeSextet c4 with
            | some s4 =>
              match base64Decode rest with
              | some bs =>
                some ((s1 * 4 + s2 / 16) :: (s2 % 16 * 16 + s3 / 4) ::
                      (s3 % 4 * 64 + s4) :: bs)
              | none => none
            | none => none
        | none => none
    | _, _ => none
  | _ => none

/-! ## Signal codec (`src/whatsapp/signal.go`)

`signalEncode` is `json.Marshal`, then (since `compress = true`) gzip,
then base64.  `signalDecode` is base64-decode, gunzip, `json.Unmarshal`;
every failure `panic`s (modelled as `none`).  JSON and gzip are external
Go libraries: they enter the model as oracle functions (`marshal`, `zip`,
`unzip`, `unmarshal`), while base64 is embedded concretely above. -/

/-- The `compress` constant of `signal.go`. -/
def signalCompress : Bool := true

/-- `signalEncode`: marshal, gzip (when `compress`), base64-encode. -/
def signalEncode {α : Type} (marshal : α → Bytes) (zip : Bytes → Bytes)
    (obj : α) : GoStr :=
  let b := marshal obj
  let b := if signalCompress then zip b else b
  base64Encode b

/-- `signalDecode`: base64-decode, gunzip (when `compress`), unmarshal.
`none` models the `panic(err)` taken on any of the three failures. -/
def signalDecode {α : Type} (unzip : Bytes → Option Bytes)
    (unmarshal : Bytes → Option α) (s : GoStr) : Option α :=
  match base64Decode s with
  | none => none
  | some b =>
    if signalCompress then
      match unzip b with
      | none => none
      | some b2 => unmarshal b2
    else unmarshal b

/-! ## Data model: payloads, calls, registry (`src/unnamed/part_007`) -/

/-- `webrtc.SessionDescription`: the structured offer/answer payload. -/
structure SessionDescription where
  sdpType : String
  sdp : String
deriving DecidableEq

/-- `webrtc.ICECandidateInit`: one candidate of a candidate list. -/
structure ICECandidateInit where
  candidate : String
deriving DecidableEq

/-- The `Call` struct: identifier plus the state of its owned resources.
`pcClosed` is the peer connection's closed state, `doneClosed` whether
`close(Done)` has run, `audioStarted` the outbound-audio flag.  The
`AudioMutex` is modelled by the atomicity of the step functions below. -/
structure Call where
  ID : String
  pcClosed : Bool := false
  doneClosed : Bool := false
  audioStarted : Bool := false
deriving DecidableEq

/-- The global `calls sync.Map`, as an association list keyed by call ID. -/
abbrev Registry := List (String × Call)

/-- `sync.Map.Store`: overwrite the entry for `k` if present, else add it. -/
def mapStore : Registry → String → Call → Registry
  | [], k, v => [(k, v)]
  | p :: ps, k, v => if p.1 = k then (k, v) :: ps else p :: mapStore ps k v

/-- `sync.Map.Load` (= `loadCall`): the value stored under `k`, if any. -/
def mapLoad : Registry → String → Option Call
  | [], _ => none
  | p :: ps, k => if p.1 = k then some p.2 else mapLoad ps k

/-- `sync.Map.Delete` (= `deleteCall`): drop the entry for `k`; no-op when
the key is absent. -/
def mapDelete : Registry → String → Registry
  | [], _ => []
  | p :: ps, k => if p.1 = k then mapDelete ps k else p :: mapDelete ps k

/-- `storeCall`. -/
def storeCall (reg : Registry) (c : Call) : Registry := mapStore reg c.ID c

/-- A sequence of `createCall` registrations, with the identifiers the
`newCallID` time+random generator produced as an oracle list: each call
builds a fresh `Call` and `storeCall`s it (no duplicate check). -/
def runCreates (reg : Registry) : List String → Registry
  | [] => reg
  | id :: ids => runCreates (storeCall reg { ID := id }) ids

/-- Go's `append` on a possibly-`nil` slice: `none` is the nil slice. -/
def goAppend {α : Type} (s : Option (List α)) (a : α) : Option (List α) :=
  some (s.getD [] ++ [a])

/-- Go's `len` on a possibly-`nil` slice. -/
def goLen {α : Type} : Option (List α) → Nat
  | none => 0
  | some l => l.length

/-- `getAllCalls`: `var ids []string` (nil) then `append` per `Range` entry. -/
def getAllCalls (reg : Registry) : Option (List String) :=
  reg.foldl (fun acc p => goAppend acc p.1) none

/-! ## Teardown (`closeCall`) and its effects -/

/-- Observable effects of teardown steps.  `pcTransitions` counts
open→closed transitions of the peer connection (`PC.Close` itself is
idempotent inside pion, so a second call is a no-op there);
`doneCloses` counts executions of `close(call.Done)`; `removals` counts
registry deletions that actually removed an entry. -/
structure TeardownFx where
  pcTransitions : Nat
  doneCloses : Nat
  removals : Nat
deriving DecidableEq

/-- `closeCall`: close the peer connection, close `Done` unless already
closed (the `select`/`default` guard), delete the registry entry. -/
def closeCall (call : Call) (reg : Registry) : Call × Registry × TeardownFx :=
  let pcT := if call.pcClosed then 0 else 1
  let c1 := { call with pcClosed := true }
  let dC := if c1.doneClosed then 0 else 1
  let c2 := { c1 with doneClosed := true }
  let removed := if (mapLoad reg call.ID).isSome then 1 else 0
  (c2, mapDelete reg call.ID, ⟨pcT, dC, removed⟩)

/-! ## HTTP handler models (`src/whatsapp/handlers.go`) -/

/-- The externally visible outcome of a handler invocation. -/
inductive HttpOutcome
  | methodNotAllowed
  | clientError (msg : String)
  | serverError (msg : String)
  | notFound (msg : String)
  | panicked
  | ok (callID : String) (body : GoStr)
deriving DecidableEq

/-- `HandleHangup`: look the call up; 404 when absent; else tear it down. -/
def handleHangup (reg : Registry) (id : String) :
    HttpOutcome × Registry × TeardownFx :=
  if id = "" then (.clientError "falta query param id", reg, ⟨0, 0, 0⟩)
  else
    match mapLoad reg id with
    | none => (.notFound "call id no encontrado", reg, ⟨0, 0, 0⟩)
    | some call =>
      let r := closeCall call reg
      (.ok id (str "OK"), r.2.1, r.2.2)

/-- The JSON value bound to `"active_calls"` in `HandleStatus`'s response:
a nil Go slice encodes as JSON `null`, a non-nil one as an array. -/
inductive IDsJson
  | null
  | arr (elems : List String)
deriving DecidableEq

/-- Encoding of the possibly-nil slice by `encoding/json`. -/
def encodeIDs : Option (List String) → IDsJson
  | none => .null
  | some l => .arr l

/-- `HandleStatus`'s response body: `active_calls` and `count`. -/
structure StatusResponse where
  activeCalls : IDsJson
  count : Nat
deriving DecidableEq

/-- `HandleStatus`. -/
def handleStatus (reg : Registry) : StatusResponse :=
  let ids := getAllCalls reg
  ⟨encodeIDs ids, goLen ids⟩

/-! ## The negotiation handshake (`HandleSDP`)

External fallible collaborators (pion peer-connection operations, the
JSON/gzip codecs, the ID generator) enter as an oracle environment; the
control flow, error classification and registry effects are translated
from the source. -/

/-- Oracle environment for one `HandleSDP` run. -/
structure HandshakeEnv where
  unzip : Bytes → Option Bytes
  unmarshalSDP : Bytes → Option SessionDescription
  unmarshalCands : Bytes → Option (List ICECandidateInit)
  zip : Bytes → Bytes
  marshalSDP : SessionDescription → Bytes
  marshalCands : List ICECandidateInit → Bytes
  /-- `newCallID()`: time+random oracle. -/
  newID : String
  /-- codec registration / `NewPeerConnection` failure, before any store. -/
  pcCreateErr : Option String
  /-- `peer.SetRemoteDescription` result on the decoded offer. -/
  setRemoteErr : SessionDescription → Option String
  /-- `peer.AddICECandidate` result per candidate. -/
  addCandErr : ICECandidateInit → Option String
  createAnswerErr : Option String
  setLocalErr : Option String
  /-- candidates accumulated by the `OnICECandidate` collector. -/
  localCandidates : List ICECandidateInit
  /-- `peer.LocalDescription()` after gathering completes. -/
  localDesc : SessionDescription

/-- `createCall` (`src/unnamed/part_007`): build the peer connection,
then store a fresh `Call` under the generated identifier.  No duplicate
check is performed: `storeCall` overwrites an existing entry. -/
def createCall (env : HandshakeEnv) (reg : Registry) :
    Except String (Call × Registry) :=
  match env.pcCreateErr with
  | some e => .error e
  | none =>
    let call : Call := { ID := env.newID }
    .ok (call, storeCall reg call)

/-- First error of `peer.AddICECandidate` over the remote candidates, in
order (the loop aborts at the first failure). -/
def firstCandErr (f : ICECandidateInit → Option String) :
    List ICECandidateInit → Option String
  | [] => none
  | c :: rest =>
    match f c with
    | some e => some e
    | none => firstCandErr f rest

/-- Result of one `HandleSDP` run: HTTP outcome, final registry, and the
number of sessions `createCall` registered during the run. -/
structure SDPResult where
  outcome : HttpOutcome
  reg : Registry
  created : Nat
deriving DecidableEq

/-- `HandleSDP`, step for step from the source: method check; read body;
trim and split on `';'` (exactly two parts required — expressed as a
match on the two-element list shape, equivalent to `len(parts) != 2`);
`signalDecode` both
envelopes (panic on failure); `createCall`; transceiver/collector/audio
setup (errors only logged); `SetRemoteDescription` (400 on failure);
`AddICECandidate` loop (400 on first failure); `CreateAnswer` and
`SetLocalDescription` (500 on failure); wait for gathering; answer with
the two encoded envelopes joined by `';'` and the `X-Call-ID` header.
None of the error paths after `createCall` closes or unregisters the
session. -/
def handleSDP (env : HandshakeEnv) (method : String) (body : GoStr)
    (reg : Registry) : SDPResult :=
  if method ≠ "POST" then ⟨.methodNotAllowed, reg, 0⟩
  else
    match goSplit ';' (goTrimSpace body) with
    | [part0, part1] =>
      match signalDecode env.unzip env.unmarshalSDP part0 with
      | none => ⟨.panicked, reg, 0⟩
      | some remoteOffer =>
        match signalDecode env.unzip env.unmarshalCands part1 with
        | none => ⟨.panicked, reg, 0⟩
        | some remoteCandidates =>
          match createCall env reg with
          | .error e =>
            ⟨.serverError ("error creando llamada: " ++ e), reg, 0⟩
          | .ok (call, reg1) =>
            match env.setRemoteErr remoteOffer with
            | some e =>
              ⟨.clientError ("SetRemoteDescription falló: " ++ e), reg1, 1⟩
            | none =>
              match firstCandErr env.addCandErr remoteCandidates with
              | some e =>
                ⟨.clientError ("AddICECandidate falló: " ++ e), reg1, 1⟩
              | none =>
                match env.createAnswerErr with
                | some e =>
                  ⟨.serverError ("CreateAnswer falló: " ++ e), reg1, 1⟩
                | none =>
                  match env.setLocalErr with
                  | some e =>
                    ⟨.serverError ("SetLocalDescription falló: " ++ e),
                     reg1, 1⟩
                  | none =>
                    let out :=
                      signalEncode env.marshalSDP env.zip env.localDesc ++
                      [';'] ++
                      signalEncode env.marshalCands env.zip env.localCandidates
                    ⟨.ok call.ID out, reg1, 1⟩
    | _ =>
      ⟨.clientError "formato esperado: <offerEncoded>;<candidatesEncoded>",
       reg, 0⟩

/-! ## Peer state-machine callbacks (`setupPeerCallbacks`) -/

/-- `webrtc.ICEConnectionState`. -/
inductive ICEConnState
  | new | checking | connected | completed | disconnected | failed | closed
deriving DecidableEq

/-- One `OnICEConnectionStateChange` notification.  Under the
`AudioMutex`: when the state is `connected` and `AudioStarted` is unset,
set it and launch the outbound audio pipeline (when an audio transceiver
with a live sender track exists); otherwise start nothing.  Returns the
updated call and the number of pipelines launched (0 or 1). -/
def onICEStateChange (hasAudioTrack : Bool) (call : Call) (s : ICEConnState) :
    Call × Nat :=
  if s = .connected then
    if call.audioStarted = false then
      ({ call with audioStarted := true }, if hasAudioTrack then 1 else 0)
    else (call, 0)
  else (call, 0)

/-- Sequential delivery of a list of ICE connectivity notifications
(pion serializes callbacks; the mutex orders racing ones), summing the
pipelines launched. -/
def runICENotifications (hasAudioTrack : Bool) (call : Call) :
    List ICEConnState → Call × Nat
  | [] => (call, 0)
  | s :: rest =>
    let r1 := onICEStateChange hasAudioTrack call s
    let r2 := runICENotifications hasAudioTrack r1.1 rest
    (r2.1, r1.2 + r2.2)

/-- `webrtc.PeerConnectionState`. -/
inductive PCConnState
  | new | connecting | connected | disconnected | failed | closed
deriving DecidableEq

/-- One `OnConnectionStateChange` notification: `failed` or `closed`
triggers `closeCall`; every other state only logs. -/
def onPCStateChange (call : Call) (reg : Registry) (s : PCConnState) :
    Call × Registry × TeardownFx :=
  if s = .failed ∨ s = .closed then closeCall call reg
  else (call, reg, ⟨0, 0, 0⟩)

/-! ## Audio bridge outbound path (`bridgeAgentAudioToWebRTC`)

Frame assembly from `handlers.go`: chunks of raw little-endian 16-bit PCM
bytes arrive on the bridge channel; they are converted to samples,
appended to `pcmBuffer`, and whole frames of
`samplesPerFrame * channels` samples are sliced off the front and handed
to the Opus encoder. -/

/-- `samplesPerFrame = 960` (20 ms at 48 kHz). -/
def samplesPerFrame : Nat := 960

/-- `channels = 1` (mono). -/
def channels : Nat := 1

/-- One whole encode frame: `samplesPerFrame * channels` samples. -/
def frameSamples : Nat := samplesPerFrame * channels

/-- `make(chan []byte, 100)`: the bridge channel's capacity. -/
def bridgeChanCap : Nat := 100

/-- Two's-complement value of a 16-bit pattern, as Go's `int16`. -/
def toInt16 (n : Nat) : Int :=
  if n % 65536 < 32768 then (n % 65536 : Int) else (n % 65536 : Int) - 65536

/-- The byte→sample loop: `numSamples := len(audioData) / 2` and
`samples[i] = int16(audioData[i*2]) | int16(audioData[i*2+1])<<8`
(little endian; a trailing odd byte is ignored by the integer division). -/
def bytesToSamples : Bytes → List Int
  | [] => []
  | [_] => []
  | lo :: hi :: rest => toInt16 (lo + hi * 256) :: bytesToSamples rest

/-- The inner `for len(pcmBuffer) >= samplesPerFrame*channels` loop:
slice whole frames off the front of the buffer, in order. -/
def extractFrames (buf : List Int) : List (List Int) × List Int :=
  if h : frameSamples ≤ buf.length then
    let r := extractFrames (buf.drop frameSamples)
    (buf.take frameSamples :: r.1, r.2)
  else ([], buf)
termination_by buf.length
decreasing_by
  simp only [List.length_drop]
  have h960 : frameSamples = 960 := rfl
  omega

/-- One iteration of the `for audioData := range audioBuffer` loop:
skip empty chunks (`continue`), else convert, append, extract frames.
Returns the frames dispatched to the encoder and the new `pcmBuffer`. -/
def processChunk (buf : List Int) (chunk : Bytes) :
    List (List Int) × List Int :=
  if chunk.length = 0 then ([], buf)
  else extractFrames (buf ++ bytesToSamples chunk)

/-- The whole consume loop over a finite sequence of chunks, starting
from buffer `buf`: all frames dispatched to the encoder (in order) and
the final partial buffer. -/
def runBridge (buf : List Int) : List Bytes → List (List Int) × List Int
  | [] => ([], buf)
  | c :: cs =>
    let r1 := processChunk buf c
    let r2 := runBridge r1.2 cs
    (r1.1 ++ r2.1, r2.2)

/-! ## Bridge channel backpressure (`playAudioBuffer`, `part_006`) -/

/-- A buffered Go channel of PCM chunks: fixed capacity, FIFO queue. -/
structure BridgeChan where
  cap : Nat
  queue : List Bytes
deriving DecidableEq

/-- `select { case ch <- chunk: ... default: ... }`: enqueue when there is
room, else refuse without blocking.  Returns the channel and whether the
send happened. -/
def chanTrySend (ch : BridgeChan) (chunk : Bytes) : BridgeChan × Bool :=
  if ch.queue.length < ch.cap then
    ({ ch with queue := ch.queue ++ [chunk] }, true)
  else (ch, false)

/-- Producer-side state of `playAudioBuffer`: the bridge channel plus the
number of dropped chunks (one `⚠️ Canal de puente lleno` warning is
emitted per drop — the observable, countable drop count). -/
structure ProducerState where
  ch : BridgeChan
  drops : Nat
deriving DecidableEq

/-- The non-blocking send step of `playAudioBuffer`: a total function
(the producer never blocks); on a full channel the new chunk is dropped
and the drop count increments. -/
def playAudioBufferSend (st : ProducerState) (pcmBytes : Bytes) :
    ProducerState :=
  let r := chanTrySend st.ch pcmBytes
  if r.2 then { st with ch := r.1 }
  else { st with drops := st.drops + 1 }

/-! ## Library lemmas about the embedded helpers -/

theorem goSplit_ne_nil (sep : Char) (s : GoStr) : goSplit sep s ≠ [] := by
  induction s with
  | nil => simp [goSplit]
  | cons c rest ih =>
    simp only [goSplit]
    split
    · simp
    · cases h : goSplit sep rest <;> simp

/-- The number of parts `strings.Split` returns is one more than the number
of separator occurrences. -/
theorem goSplit_length (sep : Char) (s : GoStr) :
    (goSplit sep s).length = s.count sep + 1 := by
  induction s with
  | nil => simp [goSplit]
  | cons c rest ih =>
    simp only [goSplit]
    by_cases h : c = sep
    · subst h
      simp [ih]
    · simp only [if_neg h]
      have hcount : (c :: rest).count sep = rest.count sep := by
        simp [List.count_cons, h]
      cases hs : goSplit sep rest with
      | nil => exact absurd hs (goSplit_ne_nil sep rest)
      | cons p ps =>
        rw [hs] at ih
        simp only [List.length_cons] at ih ⊢
        rw [hcount]
        omega

theorem decodeSextet_encodeSextet : ∀ n, n < 64 →
    decodeSextet (encodeSextet n) = some n := by decide

theorem encodeSextet_ne_pad : ∀ n, n < 64 → encodeSextet n ≠ '=' := by decide

/-- Base64 round-trip: decoding an encoding recovers the bytes. -/
theorem base64Decode_base64Encode : ∀ bs : Bytes, (∀ b ∈ bs, b < 256) →
    base64Decode (base64Encode bs) = some bs := by
  intro bs
  induction bs using base64Encode.induct with
  | case1 =>
    intro _; simp [base64Encode, base64Decode]
  | case2 b0 =>
    intro h
    have hb0 : b0 < 256 := h b0 (by simp)
    have e1 := decodeSextet_encodeSextet (b0 / 4) (by omega)
    have e2 := decodeSextet_encodeSextet (b0 % 4 * 16) (by omega)
    simp [base64Encode, base64Decode, e1, e2]
    omega
  | case3 b0 b1 =>
    intro h
    have hb0 : b0 < 256 := h b0 (by simp)
    have hb1 : b1 < 256 := h b1 (by simp)
    have e1 := decodeSextet_encodeSextet (b0 / 4) (by omega)
    have e2 := decodeSextet_encodeSextet (b0 % 4 * 16 + b1 / 16) (by omega)
    have e3 := decodeSextet_encodeSextet (b1 % 16 * 4) (by omega)
    have n3 := encodeSextet_ne_pad (b1 % 16 * 4) (by omega)
    simp [base64Encode, base64Decode, e1, e2, e3, n3]
    omega
  | case4 b0 b1 b2 rest ih =>
    intro h
    have hb0 : b0 < 256 := h b0 (by simp)
    have hb1 : b1 < 256 := h b1 (by simp)
    have hb2 : b2 < 256 := h b2 (by simp)
    have hrest : ∀ b ∈ rest, b < 256 := fun b hb => h b (by simp [hb])
    have e1 := decodeSextet_encodeSextet (b0 / 4) (by omega)
    have e2 := decodeSextet_encodeSextet (b0 % 4 * 16 + b1 / 16) (by omega)
    have e3 := decodeSextet_encodeSextet (b1 % 16 * 4 + b2 / 64) (by omega)
    have e4 := decodeSextet_encodeSextet (b2 % 64) (by omega)
    have n3 := encodeSextet_ne_pad (b1 % 16 * 4 + b2 / 64) (by omega)
    have n4 := encodeSextet_ne_pad (b2 % 64) (by omega)
    simp [base64Encode, base64Decode, e1, e2, e3, e4, n3, n4, ih hrest]
    omega

/-! ## Registry lemmas -/

theorem mapLoad_mapStore_self (reg : Registry) (k : String) (v : Call) :
    mapLoad (mapStore reg k v) k = some v := by
  induction reg with
  | nil => simp [mapStore, mapLoad]
  | cons p ps ih =>
    by_cases h : p.1 = k
    · simp [mapStore, mapLoad, h]
    · simp [mapStore, mapLoad, h, ih]

theorem mapLoad_mapDelete_self (reg : Registry) (k : String) :
    mapLoad (mapDelete reg k) k = none := by
  induction reg with
  | nil => rfl
  | cons p ps ih =>
    by_cases h : p.1 = k
    · simp [mapDelete, h, ih]
    · simp [mapDelete, mapLoad, h, ih]

theorem mapDelete_of_absent (reg : Registry) (k : String)
    (h : mapLoad reg k = none) : mapDelete reg k = reg := by
  induction reg with
  | nil => rfl
  | cons p ps ih =>
    by_cases hp : p.1 = k
    · simp [mapLoad, hp] at h
    · simp only [mapLoad, if_neg hp] at h
      simp [mapDelete, hp, ih h]

theorem mapStore_of_absent (reg : Registry) (k : String) (v : Call)
    (h : mapLoad reg k = none) : mapStore reg k v = reg ++ [(k, v)] := by
  induction reg with
  | nil => rfl
  | cons p ps ih =>
    by_cases hp : p.1 = k
    · simp [mapLoad, hp] at h
    · simp only [mapLoad, if_neg hp] at h
      simp [mapStore, hp, ih h]

theorem mapLoad_eq_none_iff (reg : Registry) (k : String) :
    mapLoad reg k = none ↔ k ∉ reg.map Prod.fst := by
  induction reg with
  | nil => simp [mapLoad]
  | cons p ps ih =>
    by_cases hp : p.1 = k
    · simp [mapLoad, hp]
    · simp only [mapLoad, if_neg hp, List.map_cons, List.mem_cons, ih]
      constructor
      · intro hh hc
        rcases hc with hc | hc
        · exact hp hc.symm
        · exact hh hc
      · intro hh hc
        exact hh (Or.inr hc)

/-! ## Claim C1 — signal codec round-trip -/

/-- A concrete offer payload, used by witnesses. -/
def sampleOffer : SessionDescription := ⟨"offer", "v=0"⟩

/-- A concrete, trivially invertible `json.Marshal` oracle for witnesses. -/
def sampleMarshal : SessionDescription → Bytes := fun _ => [123, 34, 116, 125]

/-- The matching `json.Unmarshal` oracle. -/
def sampleUnmarshal : Bytes → Option SessionDescription :=
  fun b => if b = [123, 34, 116, 125] then some sampleOffer else none

/-- **C1** (confirmed).  For every structured negotiation payload `p` that
JSON-serializes without error (oracle `marshal`), with the gzip library
inverting its own compression (`hzip`) and `json.Unmarshal` inverting
`json.Marshal` on `p` (`hjson`), decoding the envelope produced by
`signalEncode` (marshal, gzip, base64) with `signalDecode` (base64-decode,
gunzip, unmarshal) yields exactly `p`.  The base64 stage is embedded
concretely and fully verified (`base64Decode_base64Encode`). -/
theorem signal_encode_decode_roundtrip {α : Type} (marshal : α → Bytes)
    (zip : Bytes → Bytes) (unzip : Bytes → Option Bytes)
    (unmarshal : Bytes → Option α) (p : α)
    (hbytes : ∀ b ∈ zip (marshal p), b < 256)
    (hzip : unzip (zip (marshal p)) = some (marshal p))
    (hjson : unmarshal (marshal p) = some p) :
    signalDecode unzip unmarshal (signalEncode marshal zip p) = some p := by
  have hb := base64Decode_base64Encode (zip (marshal p)) hbytes
  simp [signalEncode, signalDecode, signalCompress, hb, hzip, hjson]

/-- Witness for C1: the round-trip at a concrete payload, with identity
gzip oracles and a concrete marshal/unmarshal pair. -/
theorem signal_encode_decode_roundtrip_witness :
    signalDecode some sampleUnmarshal
      (signalEncode sampleMarshal id sampleOffer) = some sampleOffer :=
  signal_encode_decode_roundtrip sampleMarshal id some sampleUnmarshal
    sampleOffer (by decide) rfl (by decide)

/-! ## Claim C3 — malformed separator count is rejected up front -/

/-- A fully successful oracle environment, used by witnesses. -/
def sampleEnv : HandshakeEnv where
  unzip := some
  unmarshalSDP := fun _ => some sampleOffer
  unmarshalCands := fun _ => some []
  zip := id
  marshalSDP := sampleMarshal
  marshalCands := fun _ => [91, 93]
  newID := "1700000000000000000-42"
  pcCreateErr := none
  setRemoteErr := fun _ => none
  addCandErr := fun _ => none
  createAnswerErr := none
  setLocalErr := none
  localCandidates := []
  localDesc := ⟨"answer", "v=0"⟩

/-- **C3** (confirmed).  A POST body whose whitespace-trimmed text does not
contain exactly one `';'` is answered with the MalformedRequest client
error; no transport is created (`created = 0`) and the registry is
returned unchanged. -/
theorem handleSDP_malformed_separator (env : HandshakeEnv) (body : GoStr)
    (reg : Registry) (h : (goTrimSpace body).count ';' ≠ 1) :
    handleSDP env "POST" body reg =
      ⟨.clientError "formato esperado: <offerEncoded>;<candidatesEncoded>",
       reg, 0⟩ := by
  have hlen : (goSplit ';' (goTrimSpace body)).length ≠ 2 := by
    rw [goSplit_length]
    omega
  cases hs : goSplit ';' (goTrimSpace body) with
  | nil => simp [handleSDP, hs]
  | cons p0 rest =>
    cases rest with
    | nil => simp [handleSDP, hs]
    | cons p1 rest2 =>
      cases rest2 with
      | nil =>
        rw [hs] at hlen
        simp at hlen
      | cons p2 rest3 => simp [handleSDP, hs]

/-- Witness for C3 at a body with no separator. -/
theorem handleSDP_malformed_separator_witness :
    (goTrimSpace (str "abc")).count ';' ≠ 1 ∧
    handleSDP sampleEnv "POST" (str "abc") [] =
      ⟨.clientError "formato esperado: <offerEncoded>;<candidatesEncoded>",
       [], 0⟩ :=
  ⟨by decide, handleSDP_malformed_separator sampleEnv (str "abc") [] (by decide)⟩

/-! ## Claim C2 — decode failure: panic, not a MalformedRequest (corrected)

`signalDecode` `panic`s on invalid base64, on decompression failure and on
unmarshal failure, and `HandleSDP` calls it without any `recover`: a
malformed envelope aborts the request by panic instead of producing the
client error the claim describes. -/

/-- **C2 counterexample.**  On the concrete POST body `"!!!;AAAA"` the
offer envelope is not valid base64; the run ends in a panic
(`HttpOutcome.panicked`), not in a MalformedRequest client error, refuting
the claim at this input. -/
theorem handleSDP_decode_panics_cex :
    (handleSDP sampleEnv "POST" (str "!!!;AAAA") []).outcome =
      HttpOutcome.panicked := by decide

/-- **C2 amended** (proved).  For every request body with exactly one
separator whose offer envelope fails to decode — or whose offer decodes
but whose candidate envelope fails to decode — `HandleSDP` panics, the
panic aborts the request before any transport is created (`created = 0`),
and the registry is unchanged; the failure is never silently ignored, but
it is not mapped to a MalformedRequest client error. -/
theorem handleSDP_decode_failure_panics (env : HandshakeEnv) (body : GoStr)
    (reg : Registry) (part0 part1 : GoStr)
    (hsplit : goSplit ';' (goTrimSpace body) = [part0, part1]) :
    (signalDecode env.unzip env.unmarshalSDP part0 = none →
      handleSDP env "POST" body reg = ⟨.panicked, reg, 0⟩) ∧
    (∀ offer, signalDecode env.unzip env.unmarshalSDP part0 = some offer →
      signalDecode env.unzip env.unmarshalCands part1 = none →
      handleSDP env "POST" body reg = ⟨.panicked, reg, 0⟩) := by
  constructor
  · intro h1
    simp [handleSDP, hsplit, h1]
  · intro o h1 h2
    simp [handleSDP, hsplit, h1, h2]

/-- Witness for the amended C2 at the counterexample input. -/
theorem handleSDP_decode_failure_panics_witness :
    handleSDP sampleEnv "POST" (str "!!!;AAAA") [] =
      ⟨.panicked, [], 0⟩ :=
  (handleSDP_decode_failure_panics sampleEnv (str "!!!;AAAA") []
    (str "!!!") (str "AAAA") (by decide)).1 (by decide)

/-! ## Claim C4 — failed negotiation does not tear the session down
(corrected)

After `createCall` has registered the session, a failing
`SetRemoteDescription` or `AddICECandidate` makes `HandleSDP` return an
HTTP error — but no error path calls `closeCall`: the transport stays
open and the session stays in the registry. -/

/-- Environment whose `SetRemoteDescription` fails. -/
def envRemoteFail : HandshakeEnv :=
  { sampleEnv with setRemoteErr := fun _ => some "bad" }

/-- **C4 counterexample.**  With a well-formed body and a failing
`SetRemoteDescription`, the handshake aborts with a client error, yet the
session created for the request is still reachable by lookup afterwards,
with its transport not closed (`pcClosed = false`) — refuting the claimed
teardown and removal. -/
theorem handleSDP_negotiation_failure_session_remains_cex :
    (handleSDP envRemoteFail "POST" (str "AAAA;AAAA") []).outcome =
      HttpOutcome.clientError "SetRemoteDescription falló: bad" ∧
    mapLoad (handleSDP envRemoteFail "POST" (str "AAAA;AAAA") []).reg
        "1700000000000000000-42" =
      some { ID := "1700000000000000000-42" } := by decide

/-- **C4 amended** (proved).  When the remote description or any remote
candidate fails to apply after the session was created and registered,
the handshake aborts with a classified client error, but the session is
NOT torn down: the new call remains in the registry with `pcClosed =
false` (transport open), `doneClosed = false`, and is reachable via
lookup. -/
theorem handleSDP_negotiation_failure_keeps_session (env : HandshakeEnv)
    (body : GoStr) (reg : Registry) (part0 part1 : GoStr)
    (offer : SessionDescription) (cands : List ICECandidateInit)
    (hsplit : goSplit ';' (goTrimSpace body) = [part0, part1])
    (hdec1 : signalDecode env.unzip env.unmarshalSDP part0 = some offer)
    (hdec2 : signalDecode env.unzip env.unmarshalCands part1 = some cands)
    (hcreate : env.pcCreateErr = none) :
    (∀ e, env.setRemoteErr offer = some e →
      handleSDP env "POST" body reg =
        ⟨.clientError ("SetRemoteDescription falló: " ++ e),
         storeCall reg { ID := env.newID }, 1⟩ ∧
      mapLoad (handleSDP env "POST" body reg).reg env.newID =
        some { ID := env.newID }) ∧
    (env.setRemoteErr offer = none →
      ∀ e, firstCandErr env.addCandErr cands = some e →
      handleSDP env "POST" body reg =
        ⟨.clientError ("AddICECandidate falló: " ++ e),
         storeCall reg { ID := env.newID }, 1⟩ ∧
      mapLoad (handleSDP env "POST" body reg).reg env.newID =
        some { ID := env.newID }) := by
  constructor
  · intro e he
    have hrun : handleSDP env "POST" body reg =
        ⟨.clientError ("SetRemoteDescription falló: " ++ e),
         storeCall reg { ID := env.newID }, 1⟩ := by
      simp [handleSDP, hsplit, hdec1, hdec2, createCall, hcreate, he,
        storeCall]
    refine ⟨hrun, ?_⟩
    rw [hrun]
    exact mapLoad_mapStore_self reg env.newID { ID := env.newID }
  · intro hok e he
    have hrun : handleSDP env "POST" body reg =
        ⟨.clientError ("AddICECandidate falló: " ++ e),
         storeCall reg { ID := env.newID }, 1⟩ := by
      simp [handleSDP, hsplit, hdec1, hdec2, createCall, hcreate, hok, he,
        storeCall]
    refine ⟨hrun, ?_⟩
    rw [hrun]
    exact mapLoad_mapStore_self reg env.newID { ID := env.newID }

/-- Witness for the amended C4 at the counterexample input. -/
theorem handleSDP_negotiation_failure_keeps_session_witness :
    handleSDP envRemoteFail "POST" (str "AAAA;AAAA") [] =
      ⟨.clientError "SetRemoteDescription falló: bad",
       storeCall [] { ID := "1700000000000000000-42" }, 1⟩ ∧
    mapLoad (handleSDP envRemoteFail "POST" (str "AAAA;AAAA") []).reg
        "1700000000000000000-42" =
      some { ID := "1700000000000000000-42" } :=
  (handleSDP_negotiation_failure_keeps_session envRemoteFail
      (str "AAAA;AAAA") [] (str "AAAA") (str "AAAA") sampleOffer []
      (by decide) (by decide) (by decide) rfl).1 "bad" rfl

/-! ## Claim C5 — outbound audio starts exactly once -/

theorem runICE_started (hasT : Bool) (notifs : List ICEConnState) :
    ∀ call : Call, call.audioStarted = true →
      (runICENotifications hasT call notifs).2 = 0 := by
  induction notifs with
  | nil =>
    intro call h
    rfl
  | cons s rest ih =>
    intro call h
    by_cases hc : s = ICEConnState.connected
    · simp [runICENotifications, onICEStateChange, hc, h, ih]
    · simp [runICENotifications, onICEStateChange, hc, h, ih]

theorem runICE_unstarted_starts (notifs : List ICEConnState) :
    ∀ call : Call, call.audioStarted = false →
      (runICENotifications true call notifs).2 =
        if notifs.count ICEConnState.connected = 0 then 0 else 1 := by
  induction notifs with
  | nil =>
    intro call h
    rfl
  | cons s rest ih =>
    intro call h
    by_cases hc : s = ICEConnState.connected
    · subst hc
      have hstarted :=
        runICE_started true rest { call with audioStarted := true } rfl
      simp [runICENotifications, onICEStateChange, h, hstarted,
        List.count_cons]
    · have hne : (ICEConnState.connected == s) = false :=
        beq_eq_false_iff_ne.mpr (fun hh => hc hh.symm)
      simp [runICENotifications, onICEStateChange, hc, h, ih call h,
        List.count_cons, hne]

/-- **C5** (confirmed).  For any sequence of ICE connectivity
notifications delivered to a session's state machine that contains two or
more `connected` notifications, and a session whose outbound audio has not
yet started (with an audio transceiver carrying a sender track present),
the outbound audio pipeline is started exactly once: the `AudioStarted`
flag guarded by `AudioMutex` stops every later `connected` notification
from launching a second pipeline. -/
theorem outbound_audio_starts_once (call : Call)
    (notifs : List ICEConnState) (hstart : call.audioStarted = false)
    (hconn : 2 ≤ notifs.count ICEConnState.connected) :
    (runICENotifications true call notifs).2 = 1 := by
  rw [runICE_unstarted_starts notifs call hstart]
  have hne : notifs.count ICEConnState.connected ≠ 0 := by omega
  simp [hne]

/-- Shared concrete call for witnesses. -/
def callW : Call := { ID := "c1" }

/-- Witness for C5: two `connected` notifications start one pipeline. -/
theorem outbound_audio_starts_once_witness :
    (runICENotifications true callW
      [ICEConnState.connected, ICEConnState.connected]).2 = 1 :=
  outbound_audio_starts_once callW
    [ICEConnState.connected, ICEConnState.connected] rfl (by decide)

/-! ## Claim C6 — teardown is idempotent -/

theorem mapLoad_mapStore_ne (reg : Registry) (k k' : String) (v : Call)
    (h : k' ≠ k) : mapLoad (mapStore reg k v) k' = mapLoad reg k' := by
  have h' : ¬ k = k' := fun hh => h hh.symm
  induction reg with
  | nil => simp [mapStore, mapLoad, h']
  | cons p ps ih =>
    by_cases hp : p.1 = k
    · simp [mapStore, mapLoad, hp, h']
    · simp [mapStore, mapLoad, hp, ih]

/-- **C6** (confirmed).  Tearing a live, registered session down twice —
back-to-back `closeCall`s, as from two `failed`/`closed` notifications —
yields exactly one open→closed transition of the transport (pion's
`PC.Close` is internally idempotent, so the second raw call has no
effect), exactly one `close(Done)` (the `select` guard skips the second),
and exactly one registry removal; deleting the then-absent identifier is
a no-op, and a second termination request is answered `NotFound` without
further effects. -/
theorem closeCall_idempotent_teardown (call : Call) (reg : Registry)
    (hpc : call.pcClosed = false) (hdone : call.doneClosed = false)
    (hmem : mapLoad reg call.ID = some call) (hid : call.ID ≠ "") :
    ((closeCall call reg).2.2.pcTransitions +
       (closeCall (closeCall call reg).1
         (closeCall call reg).2.1).2.2.pcTransitions = 1) ∧
    ((closeCall call reg).2.2.doneCloses +
       (closeCall (closeCall call reg).1
         (closeCall call reg).2.1).2.2.doneCloses = 1) ∧
    ((closeCall call reg).2.2.removals +
       (closeCall (closeCall call reg).1
         (closeCall call reg).2.1).2.2.removals = 1) ∧
    mapDelete (closeCall call reg).2.1 call.ID = (closeCall call reg).2.1 ∧
    (handleHangup (closeCall call reg).2.1 call.ID).1 =
      .notFound "call id no encontrado" := by
  have hdel := mapLoad_mapDelete_self reg call.ID
  refine ⟨?_, ?_, ?_, ?_, ?_⟩
  · simp [closeCall, hpc]
  · simp [closeCall, hdone]
  · simp [closeCall, hmem, hdel]
  · exact mapDelete_of_absent _ _ (by simpa [closeCall] using hdel)
  · simp [handleHangup, closeCall, hid, hdel]

/-- Witness for C6 at a concrete registered call. -/
theorem closeCall_idempotent_teardown_witness :
    ((closeCall callW [("c1", callW)]).2.2.pcTransitions +
       (closeCall (closeCall callW [("c1", callW)]).1
         (closeCall callW [("c1", callW)]).2.1).2.2.pcTransitions = 1) ∧
    ((closeCall callW [("c1", callW)]).2.2.doneCloses +
       (closeCall (closeCall callW [("c1", callW)]).1
         (closeCall callW [("c1", callW)]).2.1).2.2.doneCloses = 1) ∧
    ((closeCall callW [("c1", callW)]).2.2.removals +
       (closeCall (closeCall callW [("c1", callW)]).1
         (closeCall callW [("c1", callW)]).2.1).2.2.removals = 1) ∧
    mapDelete (closeCall callW [("c1", callW)]).2.1 callW.ID =
      (closeCall callW [("c1", callW)]).2.1 ∧
    (handleHangup (closeCall callW [("c1", callW)]).2.1 callW.ID).1 =
      .notFound "call id no encontrado" :=
  closeCall_idempotent_teardown callW [("c1", callW)] rfl rfl (by decide)
    (by decide)

/-! ## Claim C9 — no duplicate-identifier check (corrected)

`newCallID` concatenates a timestamp and a random number and `createCall`
stores the result without any presence check; `sync.Map.Store` overwrites.
The claim's "a fresh identifier is regenerated rather than overwriting"
is false of the code. -/

/-- **C9 counterexample.**  Two session creations whose generated
identifiers collide leave ONE registry entry — the second `storeCall`
overwrites the first, and no fresh identifier is regenerated; a create
against a registry already holding the identifier silently replaces the
existing entry. -/
theorem createCall_duplicate_id_overwrites_cex :
    (runCreates [] ["a", "a"]).length = 1 ∧
    runCreates [("a", { ID := "a", audioStarted := true })] ["a"] =
      [("a", { ID := "a" })] := by decide

/-- **C9 amended** (proved).  `createCall` never fails and performs no
duplicate check.  When the generated identifiers are pairwise distinct
and fresh for the current registry — what the time+random scheme is
relied upon to deliver — N creates add exactly N entries, the final key
list is the old keys followed by the new identifiers in order, and key
uniqueness is preserved.  On a generated collision the existing entry is
overwritten (see the counterexample), not regenerated. -/
theorem runCreates_distinct_adds_all (ids : List String) :
    ∀ reg : Registry, ids.Nodup →
      (∀ id ∈ ids, mapLoad reg id = none) →
      (runCreates reg ids).map Prod.fst = reg.map Prod.fst ++ ids ∧
      (runCreates reg ids).length = reg.length + ids.length ∧
      ((reg.map Prod.fst).Nodup →
        ((runCreates reg ids).map Prod.fst).Nodup) := by
  induction ids with
  | nil =>
    intro reg _ _
    simp [runCreates]
  | cons id ids ih =>
    intro reg hnd hfresh
    have hid : mapLoad reg id = none := hfresh id (by simp)
    have hstore : storeCall reg { ID := id } = reg ++ [(id, { ID := id })] :=
      mapStore_of_absent reg id { ID := id } hid
    have hfresh' : ∀ id' ∈ ids, mapLoad (storeCall reg { ID := id }) id' =
        none := by
      intro id' hmem
      have hne : id' ≠ id := by
        intro hcontra
        subst hcontra
        exact (List.nodup_cons.mp hnd).1 hmem
      rw [storeCall, mapLoad_mapStore_ne reg id id' { ID := id } hne]
      exact hfresh id' (by simp [hmem])
    obtain ⟨hkeys, hlen, hnodup⟩ :=
      ih (storeCall reg { ID := id }) (List.nodup_cons.mp hnd).2 hfresh'
    refine ⟨?_, ?_, ?_⟩
    · rw [runCreates, hkeys, hstore]
      simp
    · rw [runCreates, hlen, hstore]
      simp
      omega
    · intro hregnd
      rw [runCreates]
      apply hnodup
      rw [hstore]
      simp only [List.map_append, List.map_cons, List.map_nil]
      rw [List.nodup_append]
      refine ⟨hregnd, by simp, ?_⟩
      intro a ha hb
      have : a = id := by simpa using hb
      subst this
      have : a ∉ reg.map Prod.fst := (mapLoad_eq_none_iff reg a).mp hid
      exact this ha

/-- Witness for the amended C9: two distinct identifiers add two entries
with both keys present and unique. -/
theorem runCreates_distinct_adds_all_witness :
    (runCreates ([] : Registry) ["a", "b"]).map Prod.fst =
      ([] : Registry).map Prod.fst ++ ["a", "b"] ∧
    (runCreates ([] : Registry) ["a", "b"]).length = 0 + 2 ∧
    ((runCreates ([] : Registry) ["a", "b"]).map Prod.fst).Nodup :=
  ⟨(runCreates_distinct_adds_all ["a", "b"] [] (by decide) (by decide)).1,
   (runCreates_distinct_adds_all ["a", "b"] [] (by decide) (by decide)).2.1,
   (runCreates_distinct_adds_all ["a", "b"] [] (by decide)
     (by decide)).2.2 (by decide)⟩

/-! ## Claim C10 — empty status is `null`, count matches the list -/

theorem foldl_goAppend_some (l : Registry) : ∀ acc : List String,
    l.foldl (fun a p => goAppend a p.1) (some acc) =
      some (acc ++ l.map Prod.fst) := by
  induction l with
  | nil =>
    intro acc
    simp
  | cons p ps ih =>
    intro acc
    calc (p :: ps).foldl (fun a q => goAppend a q.1) (some acc)
        = ps.foldl (fun a q => goAppend a q.1) (some (acc ++ [p.1])) := by
          rw [List.foldl_cons]
          rfl
      _ = some ((acc ++ [p.1]) ++ ps.map Prod.fst) := ih (acc ++ [p.1])
      _ = some (acc ++ (p :: ps).map Prod.fst) := by simp

/-- **C10** (confirmed).  With an empty registry, `HandleStatus` reports
`count = 0` and `active_calls` as the nil slice, which `encoding/json`
renders as `null` rather than `[]` (the enumeration appends to a nil
slice); with a non-empty registry, `active_calls` is the array of exactly
the registered identifiers and `count` equals its length. -/
theorem handleStatus_nil_slice_and_count (reg : Registry) :
    (reg = [] → handleStatus reg = ⟨.null, 0⟩) ∧
    (reg ≠ [] →
      (handleStatus reg).activeCalls = .arr (reg.map Prod.fst) ∧
      (handleStatus reg).count = (reg.map Prod.fst).length) := by
  constructor
  · intro h
    subst h
    rfl
  · intro h
    cases reg with
    | nil => exact absurd rfl h
    | cons p ps =>
      have hall : getAllCalls (p :: ps) = some ((p :: ps).map Prod.fst) := by
        show (p :: ps).foldl (fun a q => goAppend a q.1) none = _
        rw [List.foldl_cons]
        have hstep : goAppend none p.1 = some [p.1] := rfl
        rw [hstep, foldl_goAppend_some ps [p.1]]
        simp
      simp [handleStatus, hall, encodeIDs, goLen]

/-- Witness for C10 at the empty and a one-call registry. -/
theorem handleStatus_nil_slice_and_count_witness :
    handleStatus [] = ⟨.null, 0⟩ ∧
    (handleStatus [("c1", callW)]).activeCalls = .arr ["c1"] ∧
    (handleStatus [("c1", callW)]).count = 1 :=
  ⟨(handleStatus_nil_slice_and_count []).1 rfl,
   ((handleStatus_nil_slice_and_count [("c1", callW)]).2 (by decide)).1,
   ((handleStatus_nil_slice_and_count [("c1", callW)]).2 (by decide)).2⟩

/-! ## Claim C8 — the producer never blocks on a full bridge channel -/

/-- **C8** (confirmed).  The bridge-channel send of `playAudioBuffer` is a
total function of the channel state — the producer never blocks.  At the
fixed capacity of 100 chunks: when the channel is full the newest chunk
is dropped (queue unchanged) and the observable drop count (one warning
log per drop) increments by one; when there is room the chunk is enqueued
at the back and nothing is dropped. -/
theorem bridge_send_never_blocks (q : List Bytes) (drops : Nat)
    (chunk : Bytes) :
    (q.length < bridgeChanCap →
      playAudioBufferSend ⟨⟨bridgeChanCap, q⟩, drops⟩ chunk =
        ⟨⟨bridgeChanCap, q ++ [chunk]⟩, drops⟩) ∧
    (bridgeChanCap ≤ q.length →
      playAudioBufferSend ⟨⟨bridgeChanCap, q⟩, drops⟩ chunk =
        ⟨⟨bridgeChanCap, q⟩, drops + 1⟩) := by
  constructor
  · intro h
    simp [playAudioBufferSend, chanTrySend, h]
  · intro h
    have hn : ¬ q.length < bridgeChanCap := Nat.not_lt.mpr h
    simp [playAudioBufferSend, chanTrySend, hn]

/-- Witness for C8: a send on a channel holding 100 chunks drops the new
chunk and bumps the drop count. -/
theorem bridge_send_never_blocks_witness :
    bridgeChanCap ≤ (List.replicate 100 ([] : Bytes)).length ∧
    playAudioBufferSend
        ⟨⟨bridgeChanCap, List.replicate 100 ([] : Bytes)⟩, 0⟩ [7] =
      ⟨⟨bridgeChanCap, List.replicate 100 ([] : Bytes)⟩, 0 + 1⟩ :=
  ⟨by simp [bridgeChanCap],
   (bridge_send_never_blocks (List.replicate 100 []) 0 [7]).2
     (by simp [bridgeChanCap])⟩

/-! ## Claim C7 — FIFO frame assembly in the outbound bridge -/

theorem extractFrames_join (buf : List Int) :
    (extractFrames buf).1.join ++ (extractFrames buf).2 = buf := by
  induction buf using extractFrames.induct with
  | case1 buf h ih =>
    rw [extractFrames, dif_pos h]
    simp only [List.join_cons, List.append_assoc, ih]
    exact List.take_append_drop frameSamples buf
  | case2 buf h =>
    rw [extractFrames, dif_neg h]
    simp

theorem extractFrames_rest_lt (buf : List Int) :
    (extractFrames buf).2.length < frameSamples := by
  induction buf using extractFrames.induct with
  | case1 buf h ih =>
    rw [extractFrames, dif_pos h]
    exact ih
  | case2 buf h =>
    rw [extractFrames, dif_neg h]
    show buf.length < frameSamples
    omega

theorem extractFrames_sizes (buf : List Int) :
    ∀ f ∈ (extractFrames buf).1, f.length = frameSamples := by
  induction buf using extractFrames.induct with
  | case1 buf h ih =>
    rw [extractFrames, dif_pos h]
    intro f hf
    rcases List.mem_cons.mp hf with hf | hf
    · subst hf
      rw [List.length_take]
      omega
    · exact ih f hf
  | case2 buf h =>
    rw [extractFrames, dif_neg h]
    simp

theorem runBridge_invariant (chunks : List Bytes) : ∀ buf : List Int,
    ((runBridge buf chunks).1.join ++ (runBridge buf chunks).2 =
      buf ++ (chunks.map bytesToSamples).join) ∧
    (buf.length < frameSamples →
      (runBridge buf chunks).2.length < frameSamples) ∧
    (∀ f ∈ (runBridge buf chunks).1, f.length = frameSamples) := by
  induction chunks with
  | nil =>
    intro buf
    simp [runBridge]
  | cons c cs ih =>
    intro buf
    by_cases hc : c.length = 0
    · have hcnil : c = [] := List.length_eq_zero.mp hc
      subst hcnil
      obtain ⟨ih1, ih2, ih3⟩ := ih buf
      refine ⟨?_, ?_, ?_⟩
      · simpa [runBridge, processChunk, bytesToSamples] using ih1
      · simpa [runBridge, processChunk] using ih2
      · simpa [runBridge, processChunk] using ih3
    · have hcne : c ≠ [] := fun hh => hc (by simp [hh])
      have h1 := extractFrames_join (buf ++ bytesToSamples c)
      have h2 := extractFrames_rest_lt (buf ++ bytesToSamples c)
      have h3 := extractFrames_sizes (buf ++ bytesToSamples c)
      obtain ⟨ih1, ih2, ih3⟩ :=
        ih (extractFrames (buf ++ bytesToSamples c)).2
      refine ⟨?_, ?_, ?_⟩
      · simp only [runBridge, processChunk, if_neg hc, List.join_append,
          List.map_cons, List.join_cons, List.append_assoc]
        rw [ih1, ← List.append_assoc, h1, List.append_assoc]
      · intro _
        simpa [runBridge, processChunk, hc, hcne] using ih2 h2
      · intro f hf
        simp only [runBridge, processChunk, if_neg hc,
          List.mem_append] at hf
        rcases hf with hf | hf
        · exact h3 f hf
        · exact ih3 f hf

theorem bytesToSamples_length : ∀ c : Bytes,
    (bytesToSamples c).length = c.length / 2
  | [] => rfl
  | [_] => by simp [bytesToSamples]
  | lo :: hi :: rest => by
    have ih := bytesToSamples_length rest
    simp only [bytesToSamples, List.length_cons, ih]
    omega

theorem samples_join_length (chunks : List Bytes) :
    ((chunks.map bytesToSamples).join).length =
      (chunks.map (fun c => c.length / 2)).sum := by
  induction chunks with
  | nil => rfl
  | cons c cs ih =>
    simp [bytesToSamples_length, ih]

theorem join_length_of_uniform : ∀ l : List (List Int),
    (∀ f ∈ l, f.length = frameSamples) →
    l.join.length = frameSamples * l.length := by
  intro l
  induction l with
  | nil =>
    intro _
    simp
  | cons f fs ih =>
    intro h
    simp only [List.join_cons, List.length_append, List.length_cons,
      h f (by simp), ih (fun g hg => h g (by simp [hg]))]
    ring

/-- **C7** (confirmed).  Feeding the outbound bridge's consume loop any
finite sequence of raw PCM byte chunks whose total sample count
(`len/2` per chunk) is an exact multiple of the frame size
(960 samples × 1 channel) dispatches exactly `total/frameSize` frames to
the encoder, whose concatenation is exactly the full sample stream in
arrival order — no sample duplicated, lost or reordered — and leaves an
empty carry buffer (partial remainders having been carried across chunk
boundaries). -/
theorem bridge_fifo_frame_assembly (chunks : List Bytes)
    (htotal : (chunks.map (fun c => c.length / 2)).sum % frameSamples = 0) :
    (runBridge [] chunks).1.length =
      (chunks.map (fun c => c.length / 2)).sum / frameSamples ∧
    (runBridge [] chunks).1.join = (chunks.map bytesToSamples).join ∧
    (runBridge [] chunks).2 = [] := by
  obtain ⟨h1, h2c, h3⟩ := runBridge_invariant chunks []
  have h2 : (runBridge [] chunks).2.length < frameSamples :=
    h2c (by decide)
  have hframes := join_length_of_uniform (runBridge [] chunks).1 h3
  have hlen : frameSamples * (runBridge [] chunks).1.length +
      (runBridge [] chunks).2.length =
      (chunks.map (fun c => c.length / 2)).sum := by
    have hl := congrArg List.length h1
    simpa [List.length_append, hframes, samples_join_length chunks] using hl
  have hfs : frameSamples = 960 := rfl
  rw [hfs] at hlen h2 htotal ⊢
  have hcarry : (runBridge [] chunks).2.length = 0 := by omega
  have hcarrynil : (runBridge [] chunks).2 = [] :=
    List.length_eq_zero.mp hcarry
  refine ⟨by omega, ?_, hcarrynil⟩
  simpa [hcarrynil] using h1

/-- Witness for C7 at a concrete input: a single one-byte chunk (whose
lone trailing byte yields zero whole samples, an exact multiple of the
frame size) produces zero frames and an empty carry. -/
theorem bridge_fifo_frame_assembly_witness :
    (runBridge [] [[7]]).1.length =
      ([[7]].map (fun c : Bytes => c.length / 2)).sum / frameSamples ∧
    (runBridge [] [[7]]).1.join = ([[7]].map bytesToSamples).join ∧
    (runBridge [] [[7]]).2 = [] :=
  bridge_fifo_frame_assembly [[7]] (by decide)

end AudioGO
